import Mathlib

set_option maxRecDepth 100000

/-!
Verification of the LZW decompressor (`src/lzw_decompressor.c`,
`src/lzw_decompressor.h`) against its natural-language specification.

The C program is shallowly embedded:
* bytes are `Nat` (always < 256 when they come from a file),
* the dictionary (`struct lzw_dict`) keeps its live entries as a list whose
  index is the code: `next_idx` is the list length, `dict_get` succeeds
  exactly on codes below it, matching `dict_contains`,
* the source file is the list of still-unread bytes, the destination file is
  the list of bytes written so far,
* `fread`/`fwrite` are total on these lists (`LZW_WRITE_DST_ERROR` and the
  heap errors are unreachable in the model, as writes to a list and `malloc`
  cannot fail),
* the decompression loop is driven by explicit fuel; the top-level entry
  point supplies `input.length + 2` fuel, which dominates the number of
  loop iterations since every odd read consumes at least two bytes,
* the C program reads uninitialised memory in two places (`cur_code` when the
  very first read hits end of file, `prev_bytes` when the very first code is
  the two-byte padded tail); such values are passed in explicitly as the
  `g`-parameters of `lzw_init` / `lzw_decompress`,
* the `assert(last_entry)` in `lzw_decompress` is modelled by the dedicated
  result `decomp_result.assert_failed`.
-/

/-- `enum lzw_error` of `lzw_decompressor.h`. -/
inductive lzw_error where
  | LZW_OKAY
  | LZW_UNKNOWN_ERROR
  | LZW_OPEN_SRC_ERROR
  | LZW_OPEN_DST_ERROR
  | LZW_HEAP_ERROR
  | LZW_WRITE_DST_ERROR
  | LZW_READ_ERROR
  | LZW_INVALID_FORMAT_ERROR
deriving Repr, DecidableEq

/-- `NUM_ASCII_VALUES` of `lzw_decompressor.h`. -/
def NUM_ASCII_VALUES : Nat := 256

/-- `CODE_WIDTH_BITS` of `lzw_decompressor.h`. -/
def CODE_WIDTH_BITS : Nat := 12

/-- `struct lzw_dict`.  `entries` holds the live entries (codes
`0 .. next_idx - 1`); `next_idx` is `entries.length`.  Entries at and above
`next_idx` of the C array are never readable through `dict_get` (which guards
with `dict_contains`), so they are not represented. -/
structure lzw_dict where
  entries : List (List Nat)
  capacity : Nat
deriving Repr, DecidableEq

/-- `reset_dict` of `lzw_decompressor.h`: free every entry at a code
`≥ NUM_ASCII_VALUES` and reset `next_idx` to `NUM_ASCII_VALUES`. -/
def reset_dict (d : lzw_dict) : lzw_dict :=
  { d with entries := d.entries.take NUM_ASCII_VALUES }

/-- `dict_add` of `lzw_decompressor.h`: reset first when `next_idx` has
reached `capacity`, then store the bytes at `next_idx` and increment it. -/
def dict_add (d : lzw_dict) (bytes : List Nat) : lzw_dict :=
  let d' := if d.capacity ≤ d.entries.length then reset_dict d else d
  { d' with entries := d'.entries ++ [bytes] }

/-- `dict_contains` of `lzw_decompressor.h`: a code is present iff it is
below `next_idx`. -/
def dict_contains (d : lzw_dict) (code : Nat) : Bool :=
  decide (code < d.entries.length)

/-- `dict_get` of `lzw_decompressor.h`: the entry at `code`, `none` when
`dict_contains` fails. -/
def dict_get (d : lzw_dict) (code : Nat) : Option (List Nat) :=
  if dict_contains d code then d.entries[code]? else none

/-- `dict_init` of `lzw_decompressor.h`: capacity `1 <<< CODE_WIDTH_BITS`,
then 256 `dict_add`s of the singleton ASCII entries `&ascii_table[i]`. -/
def dict_init : lzw_dict :=
  (List.range NUM_ASCII_VALUES).foldl (fun d i => dict_add d [i])
    { entries := [], capacity := 1 <<< CODE_WIDTH_BITS }

/-- The bootstrap table: entry `i` is the singleton byte `i`. -/
def ascii_entries : List (List Nat) :=
  (List.range NUM_ASCII_VALUES).map (fun i => [i])

/-- `struct lzw_decompressor`.  `src` is the unread part of the source file,
`dst` the bytes written so far. -/
structure lzw_decompressor where
  error : lzw_error
  src : List Nat
  dst : List Nat
  dict : lzw_dict
  prev_bytes : Nat × Nat
  odd : Bool
deriving Repr, DecidableEq

/-- The three ways a `read_next_code` call can end: it returned `true` with a
code, it returned `false` with no error (end of stream), or it returned
`false` after setting `LZW_READ_ERROR`. -/
inductive read_result where
  | code (c : Nat)
  | eof
  | read_error
deriving Repr, DecidableEq

/-- `read_next_code` of `lzw_decompressor.c`.  On odd calls it reads from the
file: no byte means end of stream, one byte is a read error, exactly two
bytes form the padded 16-bit code `(b0 <<< 8) ||| b1`, three bytes give the
code `(b0 <<< 4) ||| (b1 >>> 4)` with `b1, b2` cached in `prev_bytes`.  On
even calls it reads nothing and builds
`((prev_bytes.1 &&& 0x0F) <<< 8) ||| prev_bytes.2` from the cache.  `odd` is
flipped exactly when a code is produced. -/
def read_next_code (lzw : lzw_decompressor) : read_result × lzw_decompressor :=
  if lzw.odd then
    match lzw.src with
    | [] => (.eof, lzw)
    | [_] => (.read_error, { lzw with src := [], error := .LZW_READ_ERROR })
    | b0 :: b1 :: [] =>
        (.code ((b0 <<< 8) ||| b1), { lzw with src := [], odd := !lzw.odd })
    | b0 :: b1 :: b2 :: rest =>
        (.code ((b0 <<< 4) ||| (b1 >>> 4)),
          { lzw with src := rest, prev_bytes := (b1, b2), odd := !lzw.odd })
  else
    (.code (((lzw.prev_bytes.1 &&& 0x0F) <<< 8) ||| lzw.prev_bytes.2),
      { lzw with odd := !lzw.odd })

/-- Drives `read_next_code` until it stops producing codes, returning the
codes in order and the final error field.  `fuel` bounds the number of calls;
all uses supply enough fuel for the input at hand. -/
def read_all_codes (fuel : Nat) (s : lzw_decompressor) : List Nat × lzw_error :=
  match fuel with
  | 0 => ([], s.error)
  | fuel + 1 =>
    match read_next_code s with
    | (.code c, s') =>
        let r := read_all_codes fuel s'
        (c :: r.1, r.2)
    | (.eof, s') => ([], s'.error)
    | (.read_error, s') => ([], s'.error)

/-- Result of `lzw_decompress`: a normal return carrying the final state
(whose `error` field is the returned error code), a failure of the
`assert(last_entry)` in the loop, or fuel exhaustion (never reached with the
fuel supplied by `lzw_decompress`). -/
inductive decomp_result where
  | done (s : lzw_decompressor)
  | assert_failed (s : lzw_decompressor)
  | out_of_fuel
deriving Repr, DecidableEq

/-- The `while (read_next_code ...)` loop of `lzw_decompress`.  Per code:
look up the current and the last code; a failed lookup of the last code is
the `assert(last_entry)` failure.  If the current code is found, write its
bytes and add `last_entry.bytes ++ [cur_entry.bytes[0]]`, then set
`last_code = cur_code`.  Otherwise add and write
`last_entry.bytes ++ [last_entry.bytes[0]]` — and leave `last_code`
unchanged, exactly as the C does. -/
def lzw_loop : Nat → Nat → lzw_decompressor → decomp_result
  | 0, _, _ => .out_of_fuel
  | fuel + 1, last_code, s =>
    match read_next_code s with
    | (.eof, s') => .done s'
    | (.read_error, s') => .done s'
    | (.code c, s') =>
      match dict_get s'.dict last_code with
      | none => .assert_failed s'
      | some last_bytes =>
        match dict_get s'.dict c with
        | some cur_bytes =>
            let s1 := { s' with dst := s'.dst ++ cur_bytes }
            let s2 := { s1 with
              dict := dict_add s1.dict (last_bytes ++ [cur_bytes.headD 0]) }
            lzw_loop fuel c s2
        | none =>
            let new_bytes := last_bytes ++ [last_bytes.headD 0]
            let s1 := { s' with dict := dict_add s'.dict new_bytes }
            let s2 := { s1 with dst := s1.dst ++ new_bytes }
            lzw_loop fuel last_code s2

/-- The part of `lzw_decompress` after the first `read_next_code`: look the
first code up (an unresolvable first code is `LZW_INVALID_FORMAT_ERROR`),
write its entry, then run the loop. -/
def decompress_first (c : Nat) (s : lzw_decompressor) (fuel : Nat) : decomp_result :=
  match dict_get s.dict c with
  | none => .done { s with error := .LZW_INVALID_FORMAT_ERROR }
  | some e => lzw_loop fuel c { s with dst := s.dst ++ e }

/-- `lzw_init` of `lzw_decompressor.c` with both files opened successfully:
fresh dictionary, `odd = true`, no error.  `g_p0, g_p1` stand for the
uninitialised contents of `prev_bytes`. -/
def lzw_init (g_p0 g_p1 : Nat) (input : List Nat) : lzw_decompressor :=
  { error := .LZW_OKAY
    src := input
    dst := []
    dict := dict_init
    prev_bytes := (g_p0, g_p1)
    odd := true }

/-- `lzw_decompress` of `lzw_decompressor.c`.  The return value of the first
`read_next_code` is ignored by the C code: on end of file it proceeds with
the uninitialised `cur_code`, modelled by `g_code`; only a set
`LZW_READ_ERROR` makes it return early. -/
def lzw_decompress (g_code g_p0 g_p1 : Nat) (input : List Nat) : decomp_result :=
  match read_next_code (lzw_init g_p0 g_p1 input) with
  | (.read_error, s1) => .done s1
  | (.eof, s1) => decompress_first g_code s1 (input.length + 2)
  | (.code c, s1) => decompress_first c s1 (input.length + 2)

/-!  Reference functions modelled from the spec (no encoder and no reference
decode loop exist under `src/`; these follow the spec text and are used to
contrast the spec's intended behaviour with the code's). -/

/-- Modelled from the spec: the packing rule of section 4.1 of a conforming
encoder, missing from `src/` (the repository contains no encoder).  Two codes
fill three bytes, `byte0 = code1[11:4]`,
`byte1 = code1[3:0] <<< 4 ||| code2[11:8]`, `byte2 = code2[7:0]`; a trailing
odd code is stored as the two padded bytes `code[15:8]`, `code[7:0]`. -/
def pack_codes : List Nat → List Nat
  | [] => []
  | [c] => [c >>> 8, c &&& 0xFF]
  | c1 :: c2 :: rest =>
      (c1 >>> 4) :: (((c1 &&& 0xF) <<< 4) ||| (c2 >>> 8)) :: (c2 &&& 0xFF) ::
        pack_codes rest

/-- Modelled from the spec: the code stream of a conforming fixed-width LZW
encoder with the 256-entry bootstrap dictionary and the same
reset-at-capacity policy, missing from `src/`.  `w` is the current match,
`d` the encoder dictionary (index = code). -/
def lzw_encode_codes (d : List (List Nat)) (w : List Nat) : List Nat → List Nat
  | [] =>
    match d.findIdx? (fun e => e = w) with
    | some c => [c]
    | none => []
  | b :: rest =>
    let wb := w ++ [b]
    if (d.findIdx? (fun e => e = wb)).isSome then
      lzw_encode_codes d wb rest
    else
      match d.findIdx? (fun e => e = w) with
      | some c =>
          let d' := if 4096 ≤ d.length then d.take 256 ++ [wb] else d ++ [wb]
          c :: lzw_encode_codes d' [b] rest
      | none => []

/-- Modelled from the spec: a conforming encoder for byte sequence `S`
(sections 4.1 and 8), missing from `src/`: emit the LZW code stream starting
from the bootstrap dictionary, then pack it. -/
def lzw_encode (S : List Nat) : List Nat :=
  pack_codes (lzw_encode_codes ascii_entries [] S)

/-- Modelled from the spec: the decode loop of section 4.3 applied to a code
sequence, used as the reference for what a decoded stream should be.  Branch
3 (found): emit the entry, insert `lastEntry ++ [entry.head]`, set
`lastEntry := entry`.  Branch 4 (not found): build and insert
`newEntry = lastEntry ++ [lastEntry.head]`, emit it, set
`lastEntry := newEntry`. -/
def spec_decode_go (d : lzw_dict) (last : List Nat) (out : List Nat) :
    List Nat → Option (List Nat)
  | [] => some out
  | c :: rest =>
    match dict_get d c with
    | some e => spec_decode_go (dict_add d (last ++ [e.headD 0])) e (out ++ e) rest
    | none =>
        let ne := last ++ [last.headD 0]
        spec_decode_go (dict_add d ne) ne (out ++ ne) rest

/-- Modelled from the spec: section 4.3 start state — the first code must
resolve in the bootstrap dictionary (`InvalidFormat` otherwise), its entry is
emitted and becomes `lastEntry`, then the loop of `spec_decode_go` runs. -/
def spec_decode : List Nat → Option (List Nat)
  | [] => some []
  | c :: rest =>
    match dict_get dict_init c with
    | none => none
    | some e => spec_decode_go dict_init e e rest

/-!  Projections on `decomp_result`: the error code and destination-file
content of a normal return. -/

/-- The error code returned by a normal return of `lzw_decompress`. -/
def result_error : decomp_result → Option lzw_error
  | .done s => some s.error
  | .assert_failed _ => none
  | .out_of_fuel => none

/-- The destination file contents after a normal return of `lzw_decompress`. -/
def result_output : decomp_result → Option (List Nat)
  | .done s => some s.dst
  | .assert_failed _ => none
  | .out_of_fuel => none

/-- The dictionary after a normal return of `lzw_decompress`. -/
def result_dict : decomp_result → Option lzw_dict
  | .done s => some s.dict
  | .assert_failed _ => none
  | .out_of_fuel => none

/-!  Basic facts about the dictionary. -/

/-- A lookup is just an index into the live entries. -/
theorem dict_get_eq_getElem? (d : lzw_dict) (c : Nat) :
    dict_get d c = d.entries[c]? := by
  unfold dict_get dict_contains
  by_cases h : c < d.entries.length
  · simp [h]
  · simp [h, List.getElem?_eq_none (Nat.le_of_not_lt h)]

/-- `dict_add` never changes the capacity. -/
theorem dict_add_capacity (d : lzw_dict) (b : List Nat) :
    (dict_add d b).capacity = d.capacity := by
  unfold dict_add reset_dict
  dsimp only
  split <;> rfl

/-- Below capacity, `dict_add` just appends the new entry. -/
theorem dict_add_entries_of_lt (d : lzw_dict) (b : List Nat)
    (h : d.entries.length < d.capacity) :
    (dict_add d b).entries = d.entries ++ [b] := by
  unfold dict_add
  dsimp only
  rw [if_neg (Nat.not_le.mpr h)]

/-- The bootstrap table built by `dict_init` is exactly `ascii_entries`. -/
theorem dict_init_entries : dict_init.entries = ascii_entries := by decide

/-- `dict_init` sets the capacity to 4096. -/
theorem dict_init_capacity : dict_init.capacity = 4096 := by decide

/-- The bootstrap table has 256 entries. -/
theorem ascii_entries_length : ascii_entries.length = 256 := by
  simp [ascii_entries, NUM_ASCII_VALUES]

/-- Entry `i` of the bootstrap table is the singleton `[i]`. -/
theorem ascii_entries_getElem? (i : Nat) (h : i < 256) :
    ascii_entries[i]? = some [i] := by
  simp [ascii_entries, NUM_ASCII_VALUES, List.getElem?_range h]

/-- C5: when the next free code has reached the capacity 4096, `dict_add`
discards all entries at codes ≥ 256 in one full-table switch, resets the next
free code to 256, and then inserts the new entry at code 256 (making the next
free code 257); codes below 256 are untouched. -/
theorem c5_dict_add_resets_at_capacity (d : lzw_dict) (b : List Nat)
    (hcap : d.capacity = 4096) (hfull : d.entries.length = 4096) :
    (dict_add d b).entries = d.entries.take 256 ++ [b] ∧
    (dict_add d b).entries.length = 257 ∧
    dict_get (dict_add d b) 256 = some b ∧
    (∀ i, i < 256 → dict_get (dict_add d b) i = d.entries[i]?) := by
  have hcond : d.capacity ≤ d.entries.length := by omega
  have hentries : (dict_add d b).entries = d.entries.take 256 ++ [b] := by
    unfold dict_add reset_dict
    dsimp only
    rw [if_pos hcond]
    simp [NUM_ASCII_VALUES]
  have htake : (d.entries.take 256).length = 256 := by
    simp [List.length_take, hfull]
  refine ⟨hentries, ?_, ?_, ?_⟩
  · simp [hentries, htake]
  · rw [dict_get_eq_getElem?, hentries,
      List.getElem?_append_right (by omega : (d.entries.take 256).length ≤ 256)]
    simp [htake]
  · intro i hi
    rw [dict_get_eq_getElem?, hentries]
    rw [List.getElem?_append_left (by omega : i < (d.entries.take 256).length)]
    exact List.getElem?_take_of_lt (by omega)

/-- A dictionary filled to 4096 entries by 3840 insertions after `dict_init`,
used to instantiate `c5_dict_add_resets_at_capacity`. -/
def full_dict : lzw_dict :=
  (List.replicate 3840 [0]).foldl (fun d e => dict_add d e) dict_init

/-- Folding `dict_add` over a list preserves the capacity. -/
theorem foldl_dict_add_capacity (l : List (List Nat)) :
    ∀ d : lzw_dict, (l.foldl (fun d e => dict_add d e) d).capacity = d.capacity := by
  induction l with
  | nil => intro d; rfl
  | cons x xs ih =>
      intro d
      rw [List.foldl_cons, ih, dict_add_capacity]

/-- Folding `dict_add` over a list that keeps the dictionary within capacity
adds one entry per element. -/
theorem foldl_dict_add_length (l : List (List Nat)) :
    ∀ d : lzw_dict, d.entries.length + l.length ≤ d.capacity →
      (l.foldl (fun d e => dict_add d e) d).entries.length =
        d.entries.length + l.length := by
  induction l with
  | nil => intro d _; simp
  | cons x xs ih =>
      intro d h
      rw [List.foldl_cons]
      have hlt : d.entries.length < d.capacity := by
        simp at h; omega
      have hadd : (dict_add d x).entries = d.entries ++ [x] :=
        dict_add_entries_of_lt d x hlt
      have := ih (dict_add d x) (by
        rw [hadd, dict_add_capacity]
        simp at h ⊢
        omega)
      rw [this, hadd]
      simp
      omega

/-- The witness dictionary really has capacity 4096. -/
theorem full_dict_capacity : full_dict.capacity = 4096 := by
  rw [full_dict, foldl_dict_add_capacity, dict_init_capacity]

/-- The witness dictionary really is full. -/
theorem full_dict_length : full_dict.entries.length = 4096 := by
  have h256 : dict_init.entries.length = 256 := by
    rw [dict_init_entries, ascii_entries_length]
  have hle : dict_init.entries.length +
      (List.replicate 3840 ([0] : List Nat)).length ≤ dict_init.capacity := by
    rw [h256, dict_init_capacity, List.length_replicate]
  rw [full_dict, foldl_dict_add_length _ dict_init hle, h256,
    List.length_replicate]

/-- Witness for C5: adding to the full 4096-entry dictionary resets it and
inserts the new entry at code 256. -/
theorem c5_dict_add_resets_at_capacity_witness :
    (dict_add full_dict [7]).entries = full_dict.entries.take 256 ++ [[7]] ∧
    (dict_add full_dict [7]).entries.length = 257 ∧
    dict_get (dict_add full_dict [7]) 256 = some [7] ∧
    (∀ i, i < 256 → dict_get (dict_add full_dict [7]) i = full_dict.entries[i]?) :=
  c5_dict_add_resets_at_capacity full_dict [7] full_dict_capacity full_dict_length

/-- C7: after `dict_init`, every code in [0,255] resolves to the singleton
entry of its own value and code 256 is not found; and any `dict_add` —
including one that triggers a reset — preserves the singleton entries at
codes 0–255. -/
theorem c7_bootstrap_entries_invariant :
    (∀ i, i < 256 → dict_get dict_init i = some [i]) ∧
    dict_get dict_init 256 = none ∧
    (∀ (d : lzw_dict) (b : List Nat),
      (∀ i, i < 256 → dict_get d i = some [i]) →
      (∀ i, i < 256 → dict_get (dict_add d b) i = some [i])) := by
  refine ⟨?_, ?_, ?_⟩
  · intro i hi
    rw [dict_get_eq_getElem?, dict_init_entries]
    exact ascii_entries_getElem? i hi
  · rw [dict_get_eq_getElem?, dict_init_entries]
    exact List.getElem?_eq_none (by rw [ascii_entries_length])
  · intro d b hinv i hi
    have hlen : 256 ≤ d.entries.length := by
      have h255 := hinv 255 (by omega)
      rw [dict_get_eq_getElem?] at h255
      by_contra hc
      rw [List.getElem?_eq_none (by omega)] at h255
      exact Option.noConfusion h255
    have hget : d.entries[i]? = some [i] := by
      rw [← dict_get_eq_getElem?]
      exact hinv i hi
    rw [dict_get_eq_getElem?]
    unfold dict_add reset_dict
    dsimp only
    split
    · have htake : ((d.entries.take NUM_ASCII_VALUES).length) = 256 := by
        rw [List.length_take, NUM_ASCII_VALUES]
        omega
      rw [List.getElem?_append_left (by rw [htake]; omega)]
      rw [List.getElem?_take_of_lt (by rw [NUM_ASCII_VALUES]; omega)]
      exact hget
    · rw [List.getElem?_append_left (by omega)]
      exact hget

/-- Witness for C7: the invariant transports a bootstrap lookup across a
`dict_add`. -/
theorem c7_bootstrap_entries_invariant_witness :
    dict_get (dict_add dict_init [65, 66]) 65 = some [65] :=
  c7_bootstrap_entries_invariant.2.2 dict_init [65, 66]
    c7_bootstrap_entries_invariant.1 65 (by omega)

/-!  The bitstream reader. -/

/-- C3: inside a whole 3-byte group, the odd call returns
`(byte0 <<< 4) ||| (byte1 >>> 4)` (the first code, high 12 bits first) and
caches `byte1, byte2`; the following even call returns
`((byte1 &&& 0x0F) <<< 8) ||| byte2` (the second code). -/
theorem c3_read_next_code_packing (s : lzw_decompressor) (b0 b1 b2 : Nat)
    (rest : List Nat) (hodd : s.odd = true)
    (hsrc : s.src = b0 :: b1 :: b2 :: rest) :
    read_next_code s =
      (.code ((b0 <<< 4) ||| (b1 >>> 4)),
        { s with src := rest, prev_bytes := (b1, b2), odd := false }) ∧
    (read_next_code
        { s with src := rest, prev_bytes := (b1, b2), odd := false }).1 =
      .code (((b1 &&& 0x0F) <<< 8) ||| b2) := by
  constructor
  · rw [read_next_code, if_pos hodd, hsrc]
    simp [hodd]
  · rw [read_next_code]
    simp

/-- Witness for C3: the group `0x04 0x10 0x42` yields codes 65 then 66. -/
theorem c3_read_next_code_packing_witness :
    read_next_code (lzw_init 0 0 [0x04, 0x10, 0x42]) =
      (.code ((0x04 <<< 4) ||| (0x10 >>> 4)),
        { lzw_init 0 0 [0x04, 0x10, 0x42] with
            src := [], prev_bytes := (0x10, 0x42), odd := false }) ∧
    (read_next_code
        { lzw_init 0 0 [0x04, 0x10, 0x42] with
            src := [], prev_bytes := (0x10, 0x42), odd := false }).1 =
      .code (((0x10 &&& 0x0F) <<< 8) ||| 0x42) :=
  c3_read_next_code_packing (lzw_init 0 0 [0x04, 0x10, 0x42])
    0x04 0x10 0x42 [] rfl rfl

/-- C10: on the two-byte trailing case the reader returns
`(byte0 <<< 8) ||| byte1` with no 12-bit mask, so a tail whose first byte has
a nonzero high nibble yields a code above 4095 (and at most 65535), outside
the documented code range; such a code is not resolvable in the bootstrap
dictionary, so the loop's lookup of it fails. -/
theorem c10_trailing_code_unmasked (s : lzw_decompressor) (b0 b1 : Nat)
    (hodd : s.odd = true) (hsrc : s.src = [b0, b1])
    (hhi : 16 ≤ b0) (hb0 : b0 < 256) (hb1 : b1 < 256) :
    (read_next_code s).1 = .code ((b0 <<< 8) ||| b1) ∧
    4095 < (b0 <<< 8) ||| b1 ∧
    (b0 <<< 8) ||| b1 ≤ 65535 ∧
    dict_get dict_init ((b0 <<< 8) ||| b1) = none := by
  have hor : (b0 <<< 8) ||| b1 = b0 * 256 + b1 := by
    rw [Nat.shiftLeft_eq, Nat.mul_comm,
      ← Nat.mul_add_lt_is_or (by omega : b1 < 2 ^ 8), Nat.mul_comm]
  refine ⟨?_, ?_, ?_, ?_⟩
  · rw [read_next_code, if_pos hodd, hsrc]
  · omega
  · omega
  · rw [dict_get_eq_getElem?, dict_init_entries]
    exact List.getElem?_eq_none (by rw [ascii_entries_length]; omega)

/-- Witness for C10: the tail `0xFF 0xFF` yields the unmasked code 65535. -/
theorem c10_trailing_code_unmasked_witness :
    (read_next_code (lzw_init 0 0 [0xFF, 0xFF])).1 =
      .code ((0xFF <<< 8) ||| 0xFF) ∧
    4095 < (0xFF <<< 8) ||| 0xFF ∧
    (0xFF <<< 8) ||| 0xFF ≤ 65535 ∧
    dict_get dict_init ((0xFF <<< 8) ||| 0xFF) = none :=
  c10_trailing_code_unmasked (lzw_init 0 0 [0xFF, 0xFF]) 0xFF 0xFF
    rfl rfl (by omega) (by omega) (by omega)

/-- Trichotomy of a `read_next_code` call: a code with the error field
untouched, end of stream with the whole state untouched, or a read error
with `LZW_READ_ERROR` set. -/
theorem read_next_code_cases (s : lzw_decompressor) :
    ((∃ c, (read_next_code s).1 = .code c) ∧
      (read_next_code s).2.error = s.error ∧
      (read_next_code s).2.dict = s.dict) ∨
    ((read_next_code s).1 = .eof ∧ (read_next_code s).2 = s) ∨
    ((read_next_code s).1 = .read_error ∧
      (read_next_code s).2.error = .LZW_READ_ERROR ∧
      (read_next_code s).2.dict = s.dict) := by
  unfold read_next_code
  by_cases h : s.odd = true
  · rw [if_pos h]
    match hsrc : s.src with
    | [] => right; left; exact ⟨rfl, rfl⟩
    | [b] => right; right; exact ⟨rfl, rfl, rfl⟩
    | b0 :: b1 :: [] => left; exact ⟨⟨_, rfl⟩, rfl, rfl⟩
    | b0 :: b1 :: b2 :: rest => left; exact ⟨⟨_, rfl⟩, rfl, rfl⟩
  · rw [if_neg h]
    left
    exact ⟨⟨_, rfl⟩, rfl, rfl⟩

/-- With `odd` set, end of stream is only reported on an empty source. -/
theorem read_next_code_eof_src (s : lzw_decompressor) (hodd : s.odd = true)
    (h : (read_next_code s).1 = .eof) : s.src = [] := by
  revert h
  unfold read_next_code
  rw [if_pos hodd]
  match hsrc : s.src with
  | [] => intro _; rfl
  | [b] => intro h; exact absurd h (by simp)
  | b0 :: b1 :: [] => intro h; exact absurd h (by simp)
  | b0 :: b1 :: b2 :: rest => intro h; exact absurd h (by simp)

/-- A normal exit of the decompression loop leaves the error either as it
was on entry or as `LZW_READ_ERROR`; in particular the loop never produces
`LZW_INVALID_FORMAT_ERROR`. -/
theorem lzw_loop_done_error (fuel : Nat) :
    ∀ (last : Nat) (s s' : lzw_decompressor),
      lzw_loop fuel last s = .done s' →
      s'.error = s.error ∨ s'.error = .LZW_READ_ERROR := by
  induction fuel with
  | zero =>
      intro last s s' h
      exact absurd h (by rw [lzw_loop]; exact fun hc => by cases hc)
  | succ n ih =>
      intro last s s' h
      rw [lzw_loop] at h
      rcases hr : read_next_code s with ⟨r, s1⟩
      rw [hr] at h
      rcases read_next_code_cases s with ⟨⟨c, hc⟩, herr, _⟩ | ⟨hc, heq⟩ | ⟨hc, herr, _⟩ <;>
        rw [hr] at hc
      · dsimp at hc
        subst hc
        dsimp only at h
        rcases hlast : dict_get s1.dict last with _ | lb
        · rw [hlast] at h; cases h
        · rw [hlast] at h
          rcases hcur : dict_get s1.dict c with _ | cb <;> rw [hcur] at h
          · rcases ih _ _ _ h with h2 | h2
            · left; rw [h2]; rw [hr] at herr; exact herr
            · right; exact h2
          · rcases ih _ _ _ h with h2 | h2
            · left; rw [h2]; rw [hr] at herr; exact herr
            · right; exact h2
      · dsimp at hc
        subst hc
        dsimp only at h
        cases h
        rw [hr] at heq
        dsimp at heq
        rw [heq]
        left; rfl
      · dsimp at hc
        subst hc
        dsimp only at h
        cases h
        rw [hr] at herr
        right; exact herr

/-- C6: `lzw_decompress` returns `LZW_INVALID_FORMAT_ERROR` exactly when the
very first code read is not resolvable in the bootstrap dictionary; a later
unresolvable code never produces this error (the loop handles it as the
corner-case branch), as the loop can only return its entry error or
`LZW_READ_ERROR`. -/
theorem c6_invalid_format_iff_first_code (gc gp0 gp1 : Nat)
    (input : List Nat) (hne : input ≠ []) :
    (∃ s, lzw_decompress gc gp0 gp1 input = .done s ∧
          s.error = .LZW_INVALID_FORMAT_ERROR) ↔
    (∃ c s1, read_next_code (lzw_init gp0 gp1 input) = (.code c, s1) ∧
             dict_get dict_init c = none) := by
  rw [lzw_decompress]
  rcases hr : read_next_code (lzw_init gp0 gp1 input) with ⟨r, s1⟩
  cases r with
  | eof =>
      exact absurd (read_next_code_eof_src (lzw_init gp0 gp1 input) rfl
        (by rw [hr])) hne
  | read_error =>
      apply iff_of_false
      · rintro ⟨s, hs, herr⟩
        cases hs
        rcases read_next_code_cases (lzw_init gp0 gp1 input) with
          ⟨⟨c0, hc0⟩, _, _⟩ | ⟨hc0, _⟩ | ⟨_, herr1, _⟩
        · rw [hr] at hc0
          simp at hc0
        · rw [hr] at hc0
          simp at hc0
        · rw [hr] at herr1
          dsimp at herr1
          rw [herr1] at herr
          cases herr
      · rintro ⟨c, s', heq, _⟩
        simp at heq
  | code c =>
      have hdict : s1.dict = dict_init := by
        rcases read_next_code_cases (lzw_init gp0 gp1 input) with
          ⟨_, _, hd⟩ | ⟨hc0, _⟩ | ⟨hc0, _, _⟩
        · rw [hr] at hd
          exact hd
        · rw [hr] at hc0
          simp at hc0
        · rw [hr] at hc0
          simp at hc0
      have herr1 : s1.error = .LZW_OKAY := by
        rcases read_next_code_cases (lzw_init gp0 gp1 input) with
          ⟨_, he, _⟩ | ⟨hc0, _⟩ | ⟨hc0, _, _⟩
        · rw [hr] at he
          exact he
        · rw [hr] at hc0
          simp at hc0
        · rw [hr] at hc0
          simp at hc0
      unfold decompress_first
      dsimp only
      rw [hdict]
      rcases hd : dict_get dict_init c with _ | e
      · apply iff_of_true
        · exact ⟨_, rfl, rfl⟩
        · exact ⟨c, s1, rfl, hd⟩
      · apply iff_of_false
        · rintro ⟨s, hs, herr⟩
          rcases lzw_loop_done_error _ _ _ _ hs with h2 | h2
          · dsimp at h2
            rw [herr1] at h2
            rw [h2] at herr
            cases herr
          · rw [h2] at herr
            cases herr
        · rintro ⟨c', s', heq, hd'⟩
          rw [Prod.mk.injEq] at heq
          rcases heq with ⟨heq1, heq2⟩
          rcases heq1 with ⟨⟩
          rw [hd] at hd'
          cases hd'

/-- Witness for C6: the two-byte input `0x04 0x10` reads as first code 1040,
which exceeds the 256-entry bootstrap table, so decompression fails with
`LZW_INVALID_FORMAT_ERROR` — the spec's own example. -/
theorem c6_invalid_format_iff_first_code_witness :
    ∃ s, lzw_decompress 0 0 0 [0x04, 0x10] = .done s ∧
         s.error = .LZW_INVALID_FORMAT_ERROR :=
  (c6_invalid_format_iff_first_code 0 0 0 [0x04, 0x10] (by decide)).mpr
    ⟨(0x04 <<< 8) ||| 0x10,
     { lzw_init 0 0 [0x04, 0x10] with src := [], odd := false },
     by decide, by decide⟩

/-- C1 (failing): the conforming encoding of `S = [65, 66, 65]` ("ABA") is
`0x04 0x10 0x42 0x00 0x41` (codes 65, 66 in one group, then the padded tail
code 65), yet `lzw_decompress` writes `[65, 66, 65, 66]` ("ABAB"): after
consuming the two-byte padded tail code the reader's parity is flipped, so
the next (even) call fabricates one more code from the stale cached bytes
instead of reporting end of stream, and the decoder emits a spurious extra
entry. -/
theorem c1_round_trip_fails_on_odd_code_count :
    lzw_encode [65, 66, 65] = [0x04, 0x10, 0x42, 0x00, 0x41] ∧
    result_error (lzw_decompress 0 0 0 [0x04, 0x10, 0x42, 0x00, 0x41]) =
      some .LZW_OKAY ∧
    result_output (lzw_decompress 0 0 0 [0x04, 0x10, 0x42, 0x00, 0x41]) =
      some [65, 66, 65, 66] ∧
    result_output (lzw_decompress 0 0 0 [0x04, 0x10, 0x42, 0x00, 0x41]) ≠
      some [65, 66, 65] := by
  refine ⟨by decide, by decide, by decide, by decide⟩

/-- C4 (failing): the reader distinguishes the three terminal outcomes at an
odd call — clean end of stream on `[0x04, 0x10, 0x42]`, a read error on a
one-byte tail `[0x04, 0x10, 0x42, 0x09]` — but on the two-byte tail
`[0x04, 0x10, 0x42, 0x00, 0x41]` the padded code 65 is *not* consumed as the
last code: the reader then yields a fourth, fabricated code 66 from the stale
cache before reporting end of stream. -/
theorem c4_trailing_cases_padded_code_not_last :
    read_all_codes 7 (lzw_init 0 0 [0x04, 0x10, 0x42]) =
      ([65, 66], .LZW_OKAY) ∧
    result_error (lzw_decompress 0 0 0 [0x04, 0x10, 0x42]) = some .LZW_OKAY ∧
    read_all_codes 7 (lzw_init 0 0 [0x04, 0x10, 0x42, 0x09]) =
      ([65, 66], .LZW_READ_ERROR) ∧
    result_error (lzw_decompress 0 0 0 [0x04, 0x10, 0x42, 0x09]) =
      some .LZW_READ_ERROR ∧
    read_all_codes 7 (lzw_init 0 0 [0x04, 0x10, 0x42, 0x00, 0x41]) =
      ([65, 66, 65, 66], .LZW_OKAY) := by
  refine ⟨by decide, by decide, by decide, by decide, by decide⟩

/-- C2 (failing): `[0x04, 0x11, 0x00, 0x10, 0x10, 0x41]` is the conforming
encoding of seven 65s ("AAAAAAA"), reading as codes `[65, 256, 257, 65]`;
the spec's loop (branch 4 sets `lastEntry := newEntry`) reconstructs all
seven bytes, but the C loop leaves `last_code` unchanged in the not-found
branch, synthesizes the second corner-case entry from the stale `lastEntry`,
and writes only six bytes. -/
theorem c2_corner_case_does_not_update_last_entry :
    lzw_encode (List.replicate 7 65) = [0x04, 0x11, 0x00, 0x10, 0x10, 0x41] ∧
    read_all_codes 8 (lzw_init 0 0 [0x04, 0x11, 0x00, 0x10, 0x10, 0x41]) =
      ([65, 256, 257, 65], .LZW_OKAY) ∧
    spec_decode [65, 256, 257, 65] = some (List.replicate 7 65) ∧
    result_error (lzw_decompress 0 0 0 [0x04, 0x11, 0x00, 0x10, 0x10, 0x41]) =
      some .LZW_OKAY ∧
    result_output (lzw_decompress 0 0 0 [0x04, 0x11, 0x00, 0x10, 0x10, 0x41]) =
      some (List.replicate 6 65) := by
  refine ⟨by decide, by decide, by decide, by decide, by decide⟩

/-- C8 (counterexample): on the spec's example bytes `0x41 0x60 0x00` the
decoder does not output `A B`: the first code reads as
`(0x41 <<< 4) ||| (0x60 >>> 4) = 1046`, which is unresolvable in the
bootstrap dictionary, so decompression fails immediately with
`LZW_INVALID_FORMAT_ERROR` and writes nothing. -/
theorem c8_spec_example_bytes_do_not_decode :
    result_error (lzw_decompress 0 0 0 [0x41, 0x60, 0x00]) =
      some .LZW_INVALID_FORMAT_ERROR ∧
    result_output (lzw_decompress 0 0 0 [0x41, 0x60, 0x00]) = some [] ∧
    result_output (lzw_decompress 0 0 0 [0x41, 0x60, 0x00]) ≠
      some [65, 66] := by
  refine ⟨by decide, by decide, by decide⟩

/-- C8 (amended): the conforming packing of codes `[65, 66]` is
`0x04 0x10 0x42`, and on those bytes the decoder outputs `A B` and inserts
the entry `"AB"` at code 256. -/
theorem c8_codes_65_66_decode_to_AB :
    pack_codes [65, 66] = [0x04, 0x10, 0x42] ∧
    result_error (lzw_decompress 0 0 0 [0x04, 0x10, 0x42]) = some .LZW_OKAY ∧
    result_output (lzw_decompress 0 0 0 [0x04, 0x10, 0x42]) = some [65, 66] ∧
    (result_dict (lzw_decompress 0 0 0 [0x04, 0x10, 0x42])).bind
      (fun d => dict_get d 256) = some [65, 66] := by
  refine ⟨by decide, by decide, by decide, by decide⟩

/-!  C9: the `assert(last_entry)` in the loop can fail.  The input below
drives the dictionary to its 4096-entry capacity, then sends a high code
(300) whose insertion triggers the reset; `last_code` becomes 300, which the
reset just discarded, so the next iteration's lookup of `last_code` fails.
The development works symbolically (induction over the repeated groups)
rather than by brute evaluation. -/

/-- `n` repetitions of the 3-byte group packing codes 66, 66. -/
def rep_groups : Nat → List Nat
  | 0 => []
  | n + 1 => 0x04 :: 0x20 :: 0x42 :: rep_groups n

/-- The final five bytes: the group packing codes 66, 300, then the padded
tail code 65. -/
def c9_tail_bytes : List Nat := [0x04, 0x21, 0x2C, 0x00, 0x41]

/-- The full C9 input: codes 65, then 3840 copies of 66, then 300, then 65;
the 3841 insertions of the loop fill the dictionary and force a reset while
processing code 300. -/
def c9_input : List Nat := [0x04, 0x10, 0x42] ++ rep_groups 1919 ++ c9_tail_bytes

/-- Dictionary entries after the loop has processed `m + 1` codes of 66:
bootstrap, the entry `[65, 66]`, then `m` copies of `[66, 66]`. -/
def mid_entries (m : Nat) : List (List Nat) :=
  ascii_entries ++ [[65, 66]] ++ List.replicate m [66, 66]

/-- The `prev_bytes` cache after `n` groups, starting from `p`. -/
def psel : Nat → Nat × Nat → Nat × Nat
  | 0, p => p
  | _ + 1, _ => (0x20, 0x42)

theorem rep_groups_length (n : Nat) : (rep_groups n).length = 3 * n := by
  induction n with
  | zero => rfl
  | succ k ih => rw [rep_groups]; simp [ih]; omega

theorem psel_const (n : Nat) : psel n (0x20, 0x42) = (0x20, 0x42) := by
  cases n <;> rfl

theorem mid_entries_length (m : Nat) : (mid_entries m).length = 257 + m := by
  rw [mid_entries]
  simp [ascii_entries_length]
  omega

theorem mid_entries_snoc (m : Nat) :
    mid_entries m ++ [[66, 66]] = mid_entries (m + 1) := by
  rw [mid_entries, mid_entries, List.replicate_succ']
  simp [List.append_assoc]

/-- Code 66 always resolves to `[66]` in the mid-run dictionary. -/
theorem mid_get_66 (m : Nat) :
    dict_get ⟨mid_entries m, 4096⟩ 66 = some [66] := by
  rw [dict_get_eq_getElem?]
  dsimp only
  rw [mid_entries,
    List.getElem?_append_left (by simp [ascii_entries_length]),
    List.getElem?_append_left (by rw [ascii_entries_length]; omega)]
  exact ascii_entries_getElem? 66 (by omega)

/-- Code 300 resolves to `[66, 66]` once at least 45 codes of 66 have been
processed. -/
theorem mid_get_300 (m : Nat) (h : 44 ≤ m) :
    dict_get ⟨mid_entries m, 4096⟩ 300 = some [66, 66] := by
  rw [dict_get_eq_getElem?]
  dsimp only
  have hlen : (ascii_entries ++ [[65, 66]]).length = 257 := by
    simp [ascii_entries_length]
  rw [mid_entries, List.getElem?_append_right (by rw [hlen]; omega), hlen]
  exact List.getElem?_replicate_of_lt (by omega)

/-- Below capacity, adding `[66, 66]` to the mid-run dictionary appends. -/
theorem dict_add_mid (m : Nat) (h : m ≤ 3838) :
    dict_add ⟨mid_entries m, 4096⟩ [66, 66] = ⟨mid_entries (m + 1), 4096⟩ := by
  unfold dict_add
  dsimp only
  rw [if_neg (by rw [mid_entries_length]; omega)]
  rw [mid_entries_snoc]

/-- At capacity (`m = 3839`, 4096 entries), the add resets: all entries at
codes ≥ 256 are discarded before `[66, 66]` is inserted at code 256. -/
theorem dict_add_mid_full :
    dict_add ⟨mid_entries 3839, 4096⟩ [66, 66] =
      ⟨ascii_entries ++ [[66, 66]], 4096⟩ := by
  unfold dict_add reset_dict
  dsimp only
  rw [if_pos (by rw [mid_entries_length])]
  dsimp only
  have htake : ascii_entries.take NUM_ASCII_VALUES = ascii_entries := by
    rw [NUM_ASCII_VALUES, ← ascii_entries_length]
    exact List.take_length _
  rw [mid_entries,
    List.take_append_of_le_length (by simp [ascii_entries_length, NUM_ASCII_VALUES]),
    List.take_append_of_le_length (by rw [ascii_entries_length, NUM_ASCII_VALUES]),
    htake]

/-- Odd call on a source with at least three bytes: first code of a group. -/
theorem rnc_group (s : lzw_decompressor) (b0 b1 b2 : Nat) (rest : List Nat)
    (hodd : s.odd = true) (hsrc : s.src = b0 :: b1 :: b2 :: rest) :
    read_next_code s = (.code ((b0 <<< 4) ||| (b1 >>> 4)),
      { s with src := rest, prev_bytes := (b1, b2), odd := false }) := by
  rw [read_next_code, if_pos hodd, hsrc]
  simp [hodd]

/-- Odd call on a source with exactly two bytes: the padded tail code. -/
theorem rnc_tail2 (s : lzw_decompressor) (b0 b1 : Nat)
    (hodd : s.odd = true) (hsrc : s.src = [b0, b1]) :
    read_next_code s = (.code ((b0 <<< 8) ||| b1),
      { s with src := [], odd := false }) := by
  rw [read_next_code, if_pos hodd, hsrc]
  simp [hodd]

/-- Even call: the code comes from the cached `prev_bytes`. -/
theorem rnc_even (s : lzw_decompressor) (hodd : s.odd = false) :
    read_next_code s =
      (.code (((s.prev_bytes.1 &&& 0x0F) <<< 8) ||| s.prev_bytes.2),
        { s with odd := true }) := by
  rw [read_next_code]
  simp [hodd]

/-- One loop iteration in the found branch. -/
theorem lzw_loop_found_step (fuel last c : Nat) (s s' : lzw_decompressor)
    (lb cb : List Nat)
    (hread : read_next_code s = (.code c, s'))
    (hlast : dict_get s'.dict last = some lb)
    (hcur : dict_get s'.dict c = some cb) :
    lzw_loop (fuel + 1) last s =
      lzw_loop fuel c
        { s' with dst := s'.dst ++ cb,
                  dict := dict_add s'.dict (lb ++ [cb.headD 0]) } := by
  rw [lzw_loop, hread]
  dsimp only
  rw [hlast, hcur]

/-- One loop iteration in the not-found (corner case) branch: note the next
iteration keeps the same `last` code. -/
theorem lzw_loop_corner_step (fuel last c : Nat) (s s' : lzw_decompressor)
    (lb : List Nat)
    (hread : read_next_code s = (.code c, s'))
    (hlast : dict_get s'.dict last = some lb)
    (hcur : dict_get s'.dict c = none) :
    lzw_loop (fuel + 1) last s =
      lzw_loop fuel last
        { s' with dict := dict_add s'.dict (lb ++ [lb.headD 0]),
                  dst := s'.dst ++ (lb ++ [lb.headD 0]) } := by
  rw [lzw_loop, hread]
  dsimp only
  rw [hlast, hcur]

/-- One loop iteration hitting the `assert(last_entry)` failure. -/
theorem lzw_loop_assert_step (fuel last c : Nat) (s s' : lzw_decompressor)
    (hread : read_next_code s = (.code c, s'))
    (hlast : dict_get s'.dict last = none) :
    lzw_loop (fuel + 1) last s = .assert_failed s' := by
  rw [lzw_loop, hread]
  dsimp only
  rw [hlast]

/-- The loop exits cleanly on end of stream. -/
theorem lzw_loop_eof_step (fuel last : Nat) (s s' : lzw_decompressor)
    (hread : read_next_code s = (.eof, s')) :
    lzw_loop (fuel + 1) last s = .done s' := by
  rw [lzw_loop, hread]

/-- Resolving the first code reduces `decompress_first` to the loop. -/
theorem decompress_first_some (c fuel : Nat) (s : lzw_decompressor)
    (e : List Nat) (h : dict_get s.dict c = some e) :
    decompress_first c s fuel = lzw_loop fuel c { s with dst := s.dst ++ e } := by
  unfold decompress_first
  rw [h]

/-- Two loop iterations consume one packed group of codes 66, 66: each code
is found, emits `[66]`, and appends one `[66, 66]` entry. -/
theorem lzw_loop_one_group (m f : Nat) (hm : m ≤ 3836) (d : List Nat)
    (p : Nat × Nat) (rest : List Nat) :
    lzw_loop (f + 1 + 1) 66
      ⟨.LZW_OKAY, 0x04 :: 0x20 :: 0x42 :: rest, d,
        ⟨mid_entries m, 4096⟩, p, true⟩ =
    lzw_loop f 66
      ⟨.LZW_OKAY, rest, (d ++ [66]) ++ [66],
        ⟨mid_entries (m + 2), 4096⟩, (0x20, 0x42), true⟩ := by
  have h66a : ((0x04 : Nat) <<< 4) ||| (0x20 >>> 4) = 66 := by decide
  have h66b : (((0x20 : Nat) &&& 0x0F) <<< 8) ||| 0x42 = 66 := by decide
  have hreadA := rnc_group
    ⟨.LZW_OKAY, 0x04 :: 0x20 :: 0x42 :: rest, d, ⟨mid_entries m, 4096⟩, p, true⟩
    0x04 0x20 0x42 rest rfl rfl
  rw [h66a] at hreadA
  rw [lzw_loop_found_step (f + 1) 66 66 _ _ [66] [66] hreadA
    (mid_get_66 m) (mid_get_66 m)]
  dsimp only
  simp only [List.headD_cons, List.singleton_append]
  rw [dict_add_mid m (by omega)]
  have hreadB := rnc_even
    ⟨.LZW_OKAY, rest, d ++ [66], ⟨mid_entries (m + 1), 4096⟩, (0x20, 0x42), false⟩
    rfl
  dsimp only at hreadB
  rw [h66b] at hreadB
  rw [lzw_loop_found_step f 66 66 _ _ [66] [66] hreadB
    (mid_get_66 (m + 1)) (mid_get_66 (m + 1))]
  dsimp only
  simp only [List.headD_cons, List.singleton_append]
  rw [dict_add_mid (m + 1) (by omega)]

/-- Running the loop over `n` packed groups of codes 66, 66: emits `2n`
bytes 66 and grows the dictionary by `2n` entries. -/
theorem lzw_loop_groups (n : Nat) :
    ∀ (m f : Nat) (d : List Nat) (p : Nat × Nat) (rest : List Nat),
      m + 2 * n ≤ 3838 →
      lzw_loop (2 * n + f) 66
        ⟨.LZW_OKAY, rep_groups n ++ rest, d, ⟨mid_entries m, 4096⟩, p, true⟩ =
      lzw_loop f 66
        ⟨.LZW_OKAY, rest, d ++ List.replicate (2 * n) 66,
          ⟨mid_entries (m + 2 * n), 4096⟩, psel n p, true⟩ := by
  induction n with
  | zero =>
      intro m f d p rest hm
      simp [rep_groups, psel]
  | succ k ih =>
      intro m f d p rest hm
      have hsrc : rep_groups (k + 1) ++ rest =
          0x04 :: 0x20 :: 0x42 :: (rep_groups k ++ rest) := by
        rw [rep_groups]
        rfl
      rw [hsrc]
      have hf : 2 * (k + 1) + f = 2 * k + f + 1 + 1 := by ring
      rw [hf]
      rw [lzw_loop_one_group m (2 * k + f) (by omega) d p (rep_groups k ++ rest)]
      rw [show m + 2 * (k + 1) = m + 2 + 2 * k from by ring]
      rw [show 2 * (k + 1) = 2 * k + 1 + 1 from by ring]
      rw [List.replicate_succ, List.replicate_succ]
      rw [show psel (k + 1) p = psel k (0x20, 0x42) from (psel_const k).symm]
      rw [show d ++ (66 :: 66 :: List.replicate (2 * k) 66) =
            ((d ++ [66]) ++ [66]) ++ List.replicate (2 * k) 66 from by
          simp [List.append_assoc]]
      exact ih (m + 2) f ((d ++ [66]) ++ [66]) (0x20, 0x42) rest (by omega)

/-- C9 (failing): the `assert(last_entry)` *can* fail on an accepted input.
`c9_input` encodes codes `65, 66 x 3840, 300, 65`.  The 3841st insertion
(while processing code 300, which is found) fills code 4095; that same
iteration's `dict_add` hits capacity, discards every entry ≥ 256, and sets
`last_code = 300` — a code the reset just discarded.  The next iteration's
lookup of `last_code` returns `NotFound` and the assertion fails, after
3843 bytes have been written. -/
theorem c9_assert_last_entry_fails :
    lzw_decompress 0 0 0 c9_input = .assert_failed
      ⟨.LZW_OKAY, [], 65 :: List.replicate 3842 66,
        ⟨ascii_entries ++ [[66, 66]], 4096⟩, (0x21, 0x2C), false⟩ := by
  have hsrc0 : (lzw_init 0 0 c9_input).src =
      0x04 :: 0x10 :: 0x42 :: (rep_groups 1919 ++ c9_tail_bytes) := by
    simp [lzw_init, c9_input, List.append_assoc]
  have hread0 := rnc_group (lzw_init 0 0 c9_input) 0x04 0x10 0x42
    (rep_groups 1919 ++ c9_tail_bytes) rfl hsrc0
  have h65 : ((0x04 : Nat) <<< 4) ||| (0x10 >>> 4) = 65 := by decide
  rw [h65] at hread0
  have hlen : c9_input.length + 2 = 5767 := by
    rw [c9_input]
    simp [List.length_append, rep_groups_length, c9_tail_bytes]
  rw [lzw_decompress, hread0]
  dsimp only
  rw [hlen]
  have hget65 : dict_get dict_init 65 = some [65] := by decide
  rw [decompress_first_some 65 5767 _ [65] hget65]
  dsimp only [lzw_init, List.nil_append]
  have hread2 := rnc_even
    ⟨.LZW_OKAY, rep_groups 1919 ++ c9_tail_bytes, [65], dict_init,
      (0x10, 0x42), false⟩ rfl
  dsimp only at hread2
  have h66c : (((0x10 : Nat) &&& 0x0F) <<< 8) ||| 0x42 = 66 := by decide
  rw [h66c] at hread2
  have hget66 : dict_get dict_init 66 = some [66] := by decide
  rw [show (5767 : Nat) = 5766 + 1 from rfl]
  rw [lzw_loop_found_step 5766 65 66 _ _ [65] [66] hread2 hget65 hget66]
  dsimp only
  simp only [List.headD_cons, List.singleton_append]
  have hadd_init : dict_add dict_init [65, 66] = ⟨mid_entries 0, 4096⟩ := by
    decide
  rw [hadd_init]
  rw [show (5766 : Nat) = 2 * 1919 + 1928 from by norm_num]
  rw [lzw_loop_groups 1919 0 1928 [65, 66] (0x10, 0x42) c9_tail_bytes (by omega)]
  rw [show (0 : Nat) + 2 * 1919 = 3838 from by norm_num]
  rw [show (2 : Nat) * 1919 = 3838 from by norm_num]
  rw [show psel 1919 (0x10, 0x42) = (0x20, 0x42) from rfl]
  have hreadA := rnc_group
    ⟨.LZW_OKAY, c9_tail_bytes, [65, 66] ++ List.replicate 3838 66,
      ⟨mid_entries 3838, 4096⟩, (0x20, 0x42), true⟩
    0x04 0x21 0x2C [0x00, 0x41] rfl rfl
  have h66d : ((0x04 : Nat) <<< 4) ||| (0x21 >>> 4) = 66 := by decide
  rw [h66d] at hreadA
  rw [show (1928 : Nat) = 1927 + 1 from rfl]
  rw [lzw_loop_found_step 1927 66 66 _ _ [66] [66] hreadA
    (mid_get_66 3838) (mid_get_66 3838)]
  dsimp only
  simp only [List.headD_cons, List.singleton_append]
  rw [dict_add_mid 3838 (by omega)]
  have hreadB := rnc_even
    ⟨.LZW_OKAY, [0x00, 0x41], ([65, 66] ++ List.replicate 3838 66) ++ [66],
      ⟨mid_entries 3839, 4096⟩, (0x21, 0x2C), false⟩ rfl
  dsimp only at hreadB
  have h300 : (((0x21 : Nat) &&& 0x0F) <<< 8) ||| 0x2C = 300 := by decide
  rw [h300] at hreadB
  rw [lzw_loop_found_step 1926 66 300 _ _ [66] [66, 66] hreadB
    (mid_get_66 3839) (mid_get_300 3839 (by omega))]
  dsimp only
  simp only [List.headD_cons, List.singleton_append]
  rw [dict_add_mid_full]
  have hreadC := rnc_tail2
    ⟨.LZW_OKAY, [0x00, 0x41],
      (([65, 66] ++ List.replicate 3838 66) ++ [66]) ++ [66, 66],
      ⟨ascii_entries ++ [[66, 66]], 4096⟩, (0x21, 0x2C), true⟩ 0x00 0x41 rfl rfl
  have hnone : dict_get ⟨ascii_entries ++ [[66, 66]], 4096⟩ 300 = none := by
    rw [dict_get_eq_getElem?]
    exact List.getElem?_eq_none (by simp [ascii_entries_length])
  rw [lzw_loop_assert_step 1925 300 _ _ _ hreadC hnone]
  have hdst : (([65, 66] ++ List.replicate 3838 66) ++ [66]) ++ [66, 66] =
      65 :: List.replicate 3842 66 := by
    rw [show (3842 : Nat) = 1 + 3838 + 1 + 2 from by norm_num]
    rw [List.replicate_add, List.replicate_add, List.replicate_add]
    show (((65 :: List.replicate 1 66) ++ List.replicate 3838 66) ++
        List.replicate 1 66) ++ List.replicate 2 66 =
      65 :: (((List.replicate 1 66 ++ List.replicate 3838 66) ++
        List.replicate 1 66) ++ List.replicate 2 66)
    simp only [List.cons_append]
  rw [hdst]
